import Mathlib

/-!
Verification development for the data-discovery-UI client.

The definitions below are a shallow embedding of the client's two core
components: the workflow controller (App.tsx: handleTest, handleScan,
handleNewScan), the connection form (ConnectionForm.tsx: DB_DEFAULTS,
handleDbTypeChange, canScan) and the report engine (ComplianceReport.tsx:
sortedFindings, groupedFindings, heatmap pivot, aggregate metrics).

JavaScript numbers are modelled as Rat (confidence, comparator values) or
Int (row counts, ports); locale-aware string comparison (localeCompare) is
modelled as lexicographic comparison on the string's characters; the stable
Array.prototype.sort with a comparator cmp is modelled as List.mergeSort
with the relation fun a b => cmp a b ≤ 0 (ECMAScript requires sort to be
stable, and mergeSort is the stable reference sort).
-/

namespace DataDiscovery

/-- One PII finding row, mirroring the PIIFinding interface of api.ts. -/
structure PIIFinding where
  table : String
  column : String
  pii_type : String
  confidence : Rat
  classifier : String
  risk_level : String
  encryption_status : String
  purpose : String
deriving Repr, DecidableEq

/-- One heatmap cell, mirroring the HeatmapCell interface of api.ts. -/
structure HeatmapCell where
  table : String
  pii_type : String
  found : Bool
  confidence : Rat
deriving Repr, DecidableEq

/-- One consent mapping row, mirroring the ConsentMapping interface of api.ts. -/
structure ConsentMapping where
  table : String
  column : String
  purpose : String
  subject_id_column : Option String
deriving Repr, DecidableEq

/-- Per-table statistics, mirroring the TableStats interface of api.ts. -/
structure TableStats where
  table : String
  row_count : Int
  pii_columns : Int
deriving Repr, DecidableEq

/-- Scan summary counts, mirroring the ScanSummary interface of api.ts. -/
structure ScanSummary where
  tables_scanned : Int
  tables_with_pii : Int
  total_pii_columns : Int
  consent_fields : Int
  high_risk_fields : Int
  pii_types_found : List String
deriving Repr, DecidableEq

/-- A completed scan result, mirroring the ScanResponse interface of api.ts. -/
structure ScanResponse where
  scan_id : String
  score : Rat
  summary : ScanSummary
  findings : List PIIFinding
  consent_mappings : List ConsentMapping
  heatmap : List HeatmapCell
  table_stats : List TableStats
  estimated_data_subjects : Int
  scanned_at : String
deriving Repr, DecidableEq

/-! ### Report engine: sorting and filtering (ComplianceReport.tsx) -/

/-- The sortable columns of the findings table (type SortField). -/
inductive SortField where
  | table
  | column
  | pii_type
  | confidence
  | risk_level
deriving Repr, DecidableEq

/-- The three risk-filter states (type RiskFilter). -/
inductive RiskFilter where
  | all
  | critical
  | high
deriving Repr, DecidableEq

/-- RISK_ORDER from ComplianceReport.tsx: a partial map from risk-level
strings to their rank; absent keys yield none (undefined in JS). -/
def RISK_ORDER : String → Option Nat
  | "critical" => some 0
  | "high" => some 1
  | "medium" => some 2
  | "low" => some 3
  | _ => none

/-- The rank actually used by the comparator: RISK_ORDER[r] with the JS
nullish-coalescing default 4 for unrecognized values. -/
def riskRank (r : String) : Nat := (RISK_ORDER r).getD 4

/-- Model of String.prototype.localeCompare as used by the sort comparator:
negative when a precedes b, zero when equal, positive otherwise.  The
default locale's order is modelled by the lexicographic order on strings. -/
def localeCompare (a b : String) : Rat :=
  if a < b then -1 else if a = b then 0 else 1

/-- The per-field comparator body of the sort in sortedFindings
(ComplianceReport.tsx lines 51-59), before direction is applied. -/
def fieldCmp (field : SortField) (a b : PIIFinding) : Rat :=
  match field with
  | .confidence => a.confidence - b.confidence
  | .risk_level => (riskRank a.risk_level : Rat) - (riskRank b.risk_level : Rat)
  | .table => localeCompare a.table b.table
  | .column => localeCompare a.column b.column
  | .pii_type => localeCompare a.pii_type b.pii_type

/-- The full comparator: sortAsc selects cmp, otherwise -cmp (line 60). -/
def findingCmp (field : SortField) (sortAsc : Bool) (a b : PIIFinding) : Rat :=
  if sortAsc then fieldCmp field a b else -(fieldCmp field a b)

/-- The boolean relation fed to the stable sort: a may stay before b exactly
when the comparator is non-positive. -/
def findingLe (field : SortField) (sortAsc : Bool) (a b : PIIFinding) : Bool :=
  decide (findingCmp field sortAsc a b ≤ 0)

/-- The risk-filter predicate: the critical filter keeps exactly
risk_level == critical, the high filter keeps critical or high, and the
all filter keeps everything (lines 46-50). -/
def riskFilterPred : RiskFilter → PIIFinding → Bool
  | .all, _ => true
  | .critical, f => f.risk_level == "critical"
  | .high, f => f.risk_level == "critical" || f.risk_level == "high"

/-- The filter step of sortedFindings: the code filters only when the
filter is not all, mirroring the if/else-if chain. -/
def filterStep (findings : List PIIFinding) : RiskFilter → List PIIFinding
  | .all => findings
  | .critical => findings.filter (fun f => f.risk_level == "critical")
  | .high =>
      findings.filter (fun f => f.risk_level == "critical" || f.risk_level == "high")

/-- The sort step alone: the stable in-place Array.prototype.sort with the
comparator, modelled by the stable mergeSort. -/
def sortStep (items : List PIIFinding) (field : SortField) (sortAsc : Bool) :
    List PIIFinding :=
  items.mergeSort (findingLe field sortAsc)

/-- sortedFindings (ComplianceReport.tsx lines 44-63): copy the findings,
filter by the risk filter, then stable-sort by the selected comparator. -/
def sortedFindings (findings : List PIIFinding) (filt : RiskFilter)
    (field : SortField) (sortAsc : Bool) : List PIIFinding :=
  sortStep (filterStep findings filt) field sortAsc

/-! ### Report engine: grouping (ComplianceReport.tsx lines 66-73, 265) -/

/-- First-occurrence deduplication with an explicit seen accumulator, the
semantics of iterating a JS value through new Set(...): an element is kept
the first time it appears and dropped afterwards. -/
def firstDedupAux (seen : List String) : List String → List String
  | [] => []
  | x :: xs =>
      if x ∈ seen then firstDedupAux seen xs
      else x :: firstDedupAux (x :: seen) xs

/-- Spread of new Set(list): the distinct elements in first-appearance order. -/
def firstDedup (l : List String) : List String := firstDedupAux [] l

/-- The numeric value of a list of decimal digit characters, most
significant first. -/
def natOfDigits : List Char → Nat → Nat
  | [], acc => acc
  | c :: rest, acc => natOfDigits rest (acc * 10 + (c.toNat - 48))

/-- Decimal parse of a string: some value when the string is a non-empty
all-digit string, none otherwise (the semantics of String.toNat?, stated
over the character data). -/
def strToNat? (s : String) : Option Nat :=
  if !s.data.isEmpty && s.data.all Char.isDigit then some (natOfDigits s.data 0)
  else none

/-- The numeric value of a key, zero for non-numeric keys. -/
def strToNatD (s : String) : Nat := (strToNat? s).getD 0

/-- Canonical-array-index test for a JS object property key: the key is a
string of decimal digits that round-trips through Nat and is below
2^32 - 1.  Such keys are enumerated first and in ascending numeric order
by Object.entries (ECMAScript ordinary own property key order). -/
def isArrayIndexKey (s : String) : Bool :=
  match strToNat? s with
  | some n => Nat.repr n == s && n < 4294967295
  | none => false

/-- Numeric key order used for the array-index keys of a JS object. -/
def natKeyLE (a b : String) : Prop := strToNatD a ≤ strToNatD b

instance : DecidableRel natKeyLE := fun a b => by
  unfold natKeyLE; infer_instance

instance : IsTotal String natKeyLE :=
  ⟨fun a b => Nat.le_total (strToNatD a) (strToNatD b)⟩

instance : IsTrans String natKeyLE :=
  ⟨fun _ _ _ hab hbc => Nat.le_trans hab hbc⟩

/-- The enumeration order of the own property keys of a JS plain object,
given the insertion order of its (string) keys: canonical array-index keys
first in ascending numeric order, then the remaining keys in insertion
order. -/
def jsObjectKeys (insertion : List String) : List String :=
  List.insertionSort natKeyLE (insertion.filter isArrayIndexKey)
    ++ insertion.filter (fun k => !isArrayIndexKey k)

/-- groupedFindings (ComplianceReport.tsx lines 66-73) as enumerated by
Object.entries (line 265): the groups record is built by pushing each
finding of the sorted list onto groups[f.table], so each group holds the
findings with that table in sorted-list order, and the entries appear in
JS object key order of the first-seen table names. -/
def groupedFindings (sorted : List PIIFinding) : List (String × List PIIFinding) :=
  (jsObjectKeys (firstDedup (sorted.map (fun f => f.table)))).map
    (fun k => (k, sorted.filter (fun f => f.table == k)))

/-! ### Report engine: heatmap pivot (ComplianceReport.tsx lines 36-41, 202-221) -/

/-- The distinct table names of the heatmap cells in first-appearance order
(line 37). -/
def heatmapTables (cells : List HeatmapCell) : List String :=
  firstDedup (cells.map (fun h => h.table))

/-- The distinct PII types of the heatmap cells in first-appearance order
(line 38). -/
def heatmapPiiTypes (cells : List HeatmapCell) : List String :=
  firstDedup (cells.map (fun h => h.pii_type))

/-- The string key under which a cell is stored in the lookup Map
(line 39). -/
def cellKey (h : HeatmapCell) : String := h.table ++ "|" ++ h.pii_type

/-- heatmap.lookup.get of line 206: new Map(entries) keeps the last entry
for a duplicated key, so a get is a search of the entry list from the
end. -/
def resolveCell (cells : List HeatmapCell) (tbl pt : String) : Option HeatmapCell :=
  cells.reverse.find? (fun h => cellKey h == tbl ++ "|" ++ pt)

/-- The rendered heatmap body (lines 202-221): one cell for every pair of
the tables × piiTypes cross product, each resolved through the lookup. -/
def renderedMatrix (cells : List HeatmapCell) :
    List (String × String × Option HeatmapCell) :=
  ((heatmapTables cells).map (fun tbl =>
    (heatmapPiiTypes cells).map (fun pt => (tbl, pt, resolveCell cells tbl pt)))).flatten

/-! ### Report engine: aggregate metrics and section visibility -/

/-- The Data Volume stat card value (line 179): reduce with the per-table
row count clamped at zero. -/
def dataVolume (stats : List TableStats) : Int :=
  stats.foldl (fun sum t => sum + max 0 t.row_count) 0

/-- The Total Records figure of the detailed volume section (line 407):
the same reduce without clamping. -/
def totalRecords (stats : List TableStats) : Int :=
  stats.foldl (fun sum t => sum + t.row_count) 0

/-- The heatmap section renders only when heatmap.piiTypes.length > 0
(line 188). -/
def heatmapSectionShown (data : ScanResponse) : Bool :=
  decide (0 < (heatmapPiiTypes data.heatmap).length)

/-- The consent section renders only when data.consent_mappings.length > 0
(line 363). -/
def consentSectionShown (data : ScanResponse) : Bool :=
  decide (0 < data.consent_mappings.length)

/-- The table-stats section renders only when data.table_stats is present
and non-empty (line 390). -/
def tableStatsSectionShown (data : ScanResponse) : Bool :=
  decide (0 < data.table_stats.length)

/-! ### Connection form (ConnectionForm.tsx) -/

/-- The connection parameters, mirroring ConnectionParams of api.ts. -/
structure ConnectionParams where
  db_type : String
  host : String
  port : Int
  database : String
  schema_name : String
  user : String
  password : String
deriving Repr, DecidableEq

/-- The per-database-type default port and database name. -/
structure DbDefault where
  port : Int
  database : String
deriving Repr, DecidableEq

/-- DB_DEFAULTS (ConnectionForm.tsx lines 23-28): a partial map from
database type to its defaults; unknown types yield none (undefined). -/
def DB_DEFAULTS : String → Option DbDefault
  | "postgresql" => some ⟨5432, "postgres"⟩
  | "mysql" => some ⟨3306, "testdb"⟩
  | "snowflake" => some ⟨443, ""⟩
  | "mongodb" => some ⟨27017, "test"⟩
  | _ => none

/-- handleDbTypeChange (ConnectionForm.tsx lines 43-51): always replace
db_type and port (falling back to the postgresql defaults for an unknown
type, as DB_DEFAULTS[dbType] || DB_DEFAULTS.postgresql does); replace the
database name only when it still equals the previous type's default. -/
def handleDbTypeChange (p : ConnectionParams) (dbType : String) : ConnectionParams :=
  let defaults := (DB_DEFAULTS dbType).getD ⟨5432, "postgres"⟩
  { p with
    db_type := dbType
    port := defaults.port
    database :=
      if (DB_DEFAULTS p.db_type).map (fun d => d.database) = some p.database then
        defaults.database
      else p.database }

/-! ### Workflow controller (App.tsx) -/

/-- The three workflow phases (type AppState of App.tsx); named AppPhase
here because AppState is used for the full component state record. -/
inductive AppPhase where
  | connect
  | scanning
  | results
deriving Repr, DecidableEq

/-- The test result stored by App.tsx: the useState type on lines 13-16. -/
structure TestResult where
  success : Bool
  message : String
deriving Repr, DecidableEq

/-- The backend's test-connection response, mirroring
TestConnectionResponse of api.ts. -/
structure TestConnectionResponse where
  success : Bool
  message : String
  tables_found : Int
deriving Repr, DecidableEq

/-- The observable shape of a rejected axios call: the optional structured
backend detail field err?.response?.data?.detail, and the optional
transport-level err.message string. -/
structure ApiError where
  detail : Option String
  message : Option String
deriving Repr, DecidableEq

/-- The JS expression v || rest for an optional string v: absent and empty
strings are falsy and fall through to rest. -/
def orFalsy (v : Option String) (rest : String) : String :=
  match v with
  | some s => if s = "" then rest else s
  | none => rest

/-- The error-message extraction used by both catch blocks of App.tsx:
err?.response?.data?.detail || err.message || fallback. -/
def extractErrorMessage (e : ApiError) (fallback : String) : String :=
  orFalsy e.detail (orFalsy e.message fallback)

/-- The full component state of App.tsx (the seven useState hooks). -/
structure AppState where
  phase : AppPhase
  scanResult : Option ScanResponse
  testResult : Option TestResult
  isTesting : Bool
  isScanning : Bool
  progressMsg : String
  error : Option String
deriving Repr, DecidableEq

/-- The initial component state: connect phase, everything empty. -/
def initialState : AppState :=
  { phase := .connect
    scanResult := none
    testResult := none
    isTesting := false
    isScanning := false
    progressMsg := ""
    error := none }

/-- The synchronous prefix of handleTest (App.tsx lines 24-26), one render
batch: raise the testing flag, null the stored test result, clear the
error. -/
def handleTestStart (s : AppState) : AppState :=
  { s with isTesting := true, testResult := none, error := none }

/-- The resolved continuation of handleTest (lines 28-29 plus the finally
block): store the response as the test result and clear the testing flag. -/
def handleTestSuccess (s : AppState) (r : TestConnectionResponse) : AppState :=
  { s with testResult := some ⟨r.success, r.message⟩, isTesting := false }

/-- The rejected continuation of handleTest (lines 30-35): store a failed
test result with the extracted message and clear the testing flag.  The
workflow phase is not touched and nothing escapes the catch. -/
def handleTestFailure (s : AppState) (e : ApiError) : AppState :=
  { s with
    testResult := some ⟨false, extractErrorMessage e "Connection failed"⟩
    isTesting := false }

/-- The synchronous prefix of handleScan (App.tsx lines 40-46), one render
batch: raise the scanning flag, clear the error, set the progress message
(its final synchronous value) and move to the scanning phase. -/
def handleScanStart (s : AppState) : AppState :=
  { s with
    isScanning := true
    error := none
    progressMsg := "Running PII classifiers across all tables..."
    phase := .scanning }

/-- The resolved continuation of handleScan (lines 47-49 plus finally):
store the scan result, move to results, clear the scanning flag. -/
def handleScanSuccess (s : AppState) (r : ScanResponse) : AppState :=
  { s with scanResult := some r, phase := .results, isScanning := false }

/-- The rejected continuation of handleScan (lines 50-56): surface the
extracted message as the top-level error, move back to connect, clear the
scanning flag.  The stored test and scan results are not touched. -/
def handleScanFailure (s : AppState) (e : ApiError) : AppState :=
  { s with
    error := some (extractErrorMessage e "Scan failed")
    phase := .connect
    isScanning := false }

/-- handleNewScan (App.tsx lines 60-65): full reset back to connect. -/
def handleNewScan (s : AppState) : AppState :=
  { s with phase := .connect, scanResult := none, testResult := none, error := none }

/-- canScan (ConnectionForm.tsx line 54): testResult?.success === true,
re-derived from the stored test result on every render. -/
def canScan (s : AppState) : Bool :=
  match s.testResult with
  | some r => r.success
  | none => false

/-- Whether the Scan Now button is enabled when the form is rendered:
disabled is !canScan || isScanning (ConnectionForm.tsx line 166). -/
def scanButtonEnabled (s : AppState) : Bool :=
  canScan s && !s.isScanning

/-- The reachable component states: each constructor is one atomic render
batch of a handler, guarded by the UI conditions under which the
corresponding event can fire (buttons only exist on the connect phase and
are disabled by the in-flight flags; promise continuations fire only while
their flag is up). -/
inductive Reachable : AppState → Prop where
  | init : Reachable initialState
  | testStart {s} : Reachable s → s.phase = .connect → s.isTesting = false →
      s.isScanning = false → Reachable (handleTestStart s)
  | testOk {s} (r : TestConnectionResponse) : Reachable s → s.isTesting = true →
      Reachable (handleTestSuccess s r)
  | testErr {s} (e : ApiError) : Reachable s → s.isTesting = true →
      Reachable (handleTestFailure s e)
  | scanStart {s} : Reachable s → s.phase = .connect → canScan s = true →
      s.isScanning = false → Reachable (handleScanStart s)
  | scanOk {s} (r : ScanResponse) : Reachable s → s.isScanning = true →
      Reachable (handleScanSuccess s r)
  | scanErr {s} (e : ApiError) : Reachable s → s.isScanning = true →
      Reachable (handleScanFailure s e)
  | newScan {s} : Reachable s → s.phase = .results → Reachable (handleNewScan s)

/-! ### Concrete example inputs used by witnesses and counterexamples -/

/-- A successful backend test response. -/
def exTestResponse : TestConnectionResponse :=
  { success := true, message := "Connection successful", tables_found := 3 }

/-- The state after a started and successfully resolved connection test. -/
def sAfterTest : AppState := handleTestSuccess (handleTestStart initialState) exTestResponse

/-- The state while the scan started from sAfterTest is in flight. -/
def sScanning : AppState := handleScanStart sAfterTest

/-- A scan rejection carrying a structured backend detail. -/
def cexScanError : ApiError :=
  { detail := some "connection timeout"
    message := some "Request failed with status code 500" }

/-- The state after the in-flight scan rejects with cexScanError. -/
def sScanFailed : AppState := handleScanFailure sScanning cexScanError

/-- A rejection whose structured detail field is present but empty. -/
def cexEmptyDetailError : ApiError :=
  { detail := some "", message := some "socket hang up" }

/-- A heatmap cell whose pii_type contains the key separator character. -/
def cexCellA : HeatmapCell := { table := "a", pii_type := "b|c", found := true, confidence := 1 }

/-- A cell collection where the key of cexCellA collides with the position
(table a|b, type c) of the rendered cross product. -/
def cexCells : List HeatmapCell :=
  [cexCellA,
   { table := "a|b", pii_type := "x", found := true, confidence := 0 },
   { table := "x", pii_type := "c", found := false, confidence := 0 }]

/-- A benign cell collection without the separator in any name. -/
def witCells : List HeatmapCell :=
  [{ table := "users", pii_type := "email", found := true, confidence := 1 },
   { table := "orders", pii_type := "phone", found := false, confidence := 0 }]

/-- A finding whose table name is the integer-like string 2. -/
def exFindingT2 : PIIFinding :=
  { table := "2", column := "c1", pii_type := "email", confidence := 1,
    classifier := "regex", risk_level := "high", encryption_status := "plaintext",
    purpose := "" }

/-- A finding whose table name is the integer-like string 1. -/
def exFindingT1 : PIIFinding :=
  { table := "1", column := "c2", pii_type := "phone", confidence := 1,
    classifier := "regex", risk_level := "high", encryption_status := "plaintext",
    purpose := "" }

/-- A findings list whose first-seen table order is 2 then 1. -/
def cexGroupList : List PIIFinding := [exFindingT2, exFindingT1]

/-- A findings list with ordinary table names. -/
def witGroupList : List PIIFinding :=
  [{ exFindingT2 with table := "users" }, { exFindingT1 with table := "orders" }]

/-- A ScanResponse whose four collections are all empty. -/
def exEmptyScan : ScanResponse :=
  { scan_id := "scan-1"
    score := 82
    summary := { tables_scanned := 0, tables_with_pii := 0, total_pii_columns := 0,
                 consent_fields := 0, high_risk_fields := 0, pii_types_found := [] }
    findings := []
    consent_mappings := []
    heatmap := []
    table_stats := []
    estimated_data_subjects := 0
    scanned_at := "2026-01-01T00:00:00Z" }

/-- DEFAULT_PARAMS of ConnectionForm.tsx. -/
def DEFAULT_PARAMS : ConnectionParams :=
  { db_type := "postgresql", host := "localhost", port := 5432,
    database := "postgres", schema_name := "redacted_db", user := "", password := "" }

/-! ### Workflow theorems -/

/-- C1 counterexample: a reachable failing-scan run in which the backend
detail is connection timeout.  The workflow does return to connect and the
banner does read connection timeout, but the stored test result from
before the failed scan is NOT cleared, contradicting the claim. -/
theorem scanFailure_keeps_results_cex :
    Reachable sScanFailed ∧
    sScanFailed.phase = .connect ∧
    sScanFailed.error = some "connection timeout" ∧
    sScanFailed.testResult = some { success := true, message := "Connection successful" } ∧
    sScanFailed.testResult ≠ none := by
  refine ⟨?_, rfl, by decide, by decide, by decide⟩
  exact .scanErr cexScanError
    (.scanStart (.testOk exTestResponse (.testStart .init rfl rfl rfl) rfl) rfl rfl rfl)
    rfl

/-- C1 (amended): when the scan call rejects, the workflow reverts to
connect, the extracted message is surfaced as the top-level error and the
scanning flag is cleared; the previously stored test and scan results are
left unchanged, not cleared. -/
theorem scanFailure_spec (s : AppState) (e : ApiError) :
    (handleScanFailure s e).phase = .connect ∧
    (handleScanFailure s e).error = some (extractErrorMessage e "Scan failed") ∧
    (handleScanFailure s e).isScanning = false ∧
    (handleScanFailure s e).testResult = s.testResult ∧
    (handleScanFailure s e).scanResult = s.scanResult :=
  ⟨rfl, rfl, rfl, rfl, rfl⟩

/-- Invariant: in every reachable state the scanning flag is up exactly
while the workflow is in the scanning phase. -/
theorem reachable_scanning_iff {s : AppState} (h : Reachable s) :
    s.isScanning = true ↔ s.phase = .scanning := by
  induction h with
  | init => simp [initialState]
  | testStart h hc ht hs ih => simpa [handleTestStart] using ih
  | testOk r h ht ih => simpa [handleTestSuccess] using ih
  | testErr e h ht ih => simpa [handleTestFailure] using ih
  | scanStart h hc hcs hs ih => simp [handleScanStart]
  | scanOk r h hs ih => simp [handleScanSuccess]
  | scanErr e h hs ih => simp [handleScanFailure]
  | newScan h hr ih => simp [handleNewScan, hr] at ih ⊢; simp [ih]

/-- C2: in every reachable state showing the connection form, the Scan Now
button is enabled exactly when the stored test result is a success; a
fresh test attempt nulls the stored result (disabling the scan) and a
failed test stores a non-success result (also disabling it). -/
theorem scanGating :
    (∀ s : AppState, Reachable s → s.phase = .connect →
      (scanButtonEnabled s = true ↔ ∃ r, s.testResult = some r ∧ r.success = true)) ∧
    (∀ s : AppState, (handleTestStart s).testResult = none ∧
      canScan (handleTestStart s) = false) ∧
    (∀ (s : AppState) (e : ApiError), canScan (handleTestFailure s e) = false) := by
  refine ⟨?_, fun s => ⟨rfl, rfl⟩, fun s e => rfl⟩
  intro s h hc
  have hsc : s.isScanning = false := by
    rcases hb : s.isScanning with _ | _
    · rfl
    · exact absurd ((reachable_scanning_iff h).mp hb) (by simp [hc])
  unfold scanButtonEnabled canScan
  rcases ht : s.testResult with _ | r
  · simp [hsc]
  · rcases hr : r.success with _ | _
    · simp only [hsc, hr, Bool.not_false, Bool.and_true, Bool.false_eq_true,
        false_iff]
      intro hcon
      rcases hcon with ⟨r', hr', hs'⟩
      cases hr'
      simp [hr] at hs'
    · simp only [hsc, hr, Bool.not_false, Bool.and_true, true_iff]
      exact ⟨r, rfl, hr⟩

/-- C2 witness: in the reachable state reached by a started and
successfully resolved test, the gate is exactly the stored success. -/
theorem scanGating_witness :
    scanButtonEnabled sAfterTest = true ↔
      ∃ r, sAfterTest.testResult = some r ∧ r.success = true :=
  scanGating.1 sAfterTest
    (.testOk exTestResponse (.testStart .init rfl rfl rfl) rfl) rfl

/-- C8 counterexample: with a present-but-empty structured detail field
the stored failure message is the transport message, not the detail field,
because the extraction uses JS truthiness rather than presence. -/
theorem testFailure_empty_detail_cex :
    cexEmptyDetailError.detail = some "" ∧
    (handleTestFailure initialState cexEmptyDetailError).testResult =
      some { success := false, message := "socket hang up" } ∧
    ("socket hang up" : String) ≠ "" := by
  refine ⟨rfl, by decide, by decide⟩

/-- C8 (amended): handleTest is total and never changes the workflow
phase; the testing flag is cleared on both continuations; on failure the
stored message is the structured detail field when present and non-empty,
otherwise the transport message when present and non-empty, otherwise the
fallback Connection failed. -/
theorem handleTest_spec (s : AppState) (r : TestConnectionResponse) (e : ApiError) :
    ((handleTestSuccess s r).isTesting = false ∧
      (handleTestSuccess s r).phase = s.phase ∧
      (handleTestSuccess s r).testResult = some { success := r.success, message := r.message }) ∧
    ((handleTestFailure s e).isTesting = false ∧
      (handleTestFailure s e).phase = s.phase ∧
      (handleTestFailure s e).scanResult = s.scanResult ∧
      (handleTestFailure s e).testResult =
        some { success := false, message := extractErrorMessage e "Connection failed" }) ∧
    (∀ d, e.detail = some d → d ≠ "" →
      extractErrorMessage e "Connection failed" = d) ∧
    ((e.detail = none ∨ e.detail = some "") →
      (∀ m, e.message = some m → m ≠ "" →
        extractErrorMessage e "Connection failed" = m) ∧
      ((e.message = none ∨ e.message = some "") →
        extractErrorMessage e "Connection failed" = "Connection failed")) := by
  refine ⟨⟨rfl, rfl, rfl⟩, ⟨rfl, rfl, rfl, rfl⟩, ?_, ?_⟩
  · intro d hd hne
    simp [extractErrorMessage, orFalsy, hd, hne]
  · intro hd
    constructor
    · intro m hm hne
      rcases hd with hd | hd <;> simp [extractErrorMessage, orFalsy, hd, hm, hne]
    · intro hm
      rcases hd with hd | hd <;> rcases hm with hm | hm <;>
        simp [extractErrorMessage, orFalsy, hd, hm]

/-- C8 witness: the three extraction precedences and the flag clearing at
concrete inputs. -/
theorem handleTest_spec_witness :
    (handleTestFailure initialState { detail := none, message := none }).isTesting = false ∧
    (handleTestFailure initialState { detail := none, message := none }).testResult =
      some { success := false, message := "Connection failed" } ∧
    extractErrorMessage { detail := some "db down", message := some "x" }
      "Connection failed" = "db down" ∧
    extractErrorMessage { detail := none, message := some "x" }
      "Connection failed" = "x" := by
  have h0 := handleTest_spec initialState exTestResponse { detail := none, message := none }
  have h1 := handleTest_spec initialState exTestResponse
    { detail := some "db down", message := some "x" }
  have h2 := handleTest_spec initialState exTestResponse { detail := none, message := some "x" }
  refine ⟨h0.2.1.1, ?_, ?_, ?_⟩
  · have := h0.2.1.2.2.2
    rw [this]
    rw [(h0.2.2.2 (Or.inl rfl)).2 (Or.inl rfl)]
  · exact h1.2.2.1 "db down" rfl (by decide)
  · exact (h2.2.2.2 (Or.inl rfl)).1 "x" rfl (by decide)

/-! ### Connection form theorems -/

/-- C10: changing the database type always installs the new type's default
port, replaces the database name only when it still equals the previous
type's default, and leaves host, schema, user and password untouched. -/
theorem handleDbTypeChange_spec (p : ConnectionParams) (t : String) (d : DbDefault)
    (h : DB_DEFAULTS t = some d) :
    (handleDbTypeChange p t).db_type = t ∧
    (handleDbTypeChange p t).port = d.port ∧
    ((DB_DEFAULTS p.db_type).map (fun x => x.database) = some p.database →
      (handleDbTypeChange p t).database = d.database) ∧
    ((DB_DEFAULTS p.db_type).map (fun x => x.database) ≠ some p.database →
      (handleDbTypeChange p t).database = p.database) ∧
    (handleDbTypeChange p t).host = p.host ∧
    (handleDbTypeChange p t).schema_name = p.schema_name ∧
    (handleDbTypeChange p t).user = p.user ∧
    (handleDbTypeChange p t).password = p.password := by
  refine ⟨rfl, ?_, ?_, ?_, rfl, rfl, rfl, rfl⟩
  · simp [handleDbTypeChange, h]
  · intro hm
    simp [handleDbTypeChange, h, hm]
  · intro hm
    simp [handleDbTypeChange, h, hm]

/-- C10 witness: switching the default postgresql form to mysql installs
port 3306, replaces the still-default database name by testdb, and leaves
the host as typed. -/
theorem handleDbTypeChange_spec_witness :
    (handleDbTypeChange DEFAULT_PARAMS "mysql").port = 3306 ∧
    (handleDbTypeChange DEFAULT_PARAMS "mysql").database = "testdb" ∧
    (handleDbTypeChange DEFAULT_PARAMS "mysql").host = "localhost" := by
  have h := handleDbTypeChange_spec DEFAULT_PARAMS "mysql" ⟨3306, "testdb"⟩ rfl
  refine ⟨h.2.1, ?_, ?_⟩
  · rw [h.2.2.1 (by decide)]
  · rw [h.2.2.2.2.1]
    rfl

/-! ### Aggregate metrics theorems -/

/-- A left fold adding f over a list is the start value plus the sum. -/
theorem foldl_add_eq_sum (f : TableStats → Int) (l : List TableStats) (i : Int) :
    l.foldl (fun sum t => sum + f t) i = i + (l.map f).sum := by
  induction l generalizing i with
  | nil => simp
  | cons t ts ih => simp [ih, add_assoc]

/-- A sum of integers is bounded by the sum of their zero-clamped values. -/
theorem sum_le_sum_clamped (l : List Int) :
    l.sum ≤ (l.map (fun x => max 0 x)).sum := by
  induction l with
  | nil => simp
  | cons x xs ih =>
      simp only [List.map_cons, List.sum_cons]
      exact add_le_add (le_max_right 0 x) ih

/-- The clamped and unclamped sums agree exactly when no entry is
negative. -/
theorem sum_clamped_eq_iff (l : List Int) :
    (l.map (fun x => max 0 x)).sum = l.sum ↔ ∀ x ∈ l, 0 ≤ x := by
  induction l with
  | nil => simp
  | cons x xs ih =>
      simp only [List.map_cons, List.sum_cons, List.mem_cons]
      constructor
      · intro h
        have h1 : x ≤ max 0 x := le_max_right 0 x
        have h2 : xs.sum ≤ (xs.map (fun x => max 0 x)).sum := sum_le_sum_clamped xs
        have hx : max 0 x = x := by omega
        have hxs : (xs.map (fun x => max 0 x)).sum = xs.sum := by omega
        intro y hy
        rcases hy with rfl | hy
        · have := le_max_left 0 y
          omega
        · exact (ih.mp hxs) y hy
      · intro h
        have hx : max 0 x = x := max_eq_right (h x (Or.inl rfl))
        have hxs : (xs.map (fun x => max 0 x)).sum = xs.sum :=
          ih.mpr (fun y hy => h y (Or.inr hy))
        omega

/-- C7: the Data Volume stat card sums the row counts with each count
clamped at zero, the Total Records figure sums them unclamped, and the
two figures differ exactly when some row count is negative. -/
theorem dataVolume_vs_totalRecords (stats : List TableStats) :
    (dataVolume stats ≠ totalRecords stats ↔ ∃ t ∈ stats, t.row_count < 0) ∧
    totalRecords stats ≤ dataVolume stats ∧
    dataVolume stats = (stats.map (fun t => max 0 t.row_count)).sum ∧
    totalRecords stats = (stats.map (fun t => t.row_count)).sum := by
  have hv : dataVolume stats = (stats.map (fun t => max 0 t.row_count)).sum := by
    unfold dataVolume
    rw [foldl_add_eq_sum (fun t => max 0 t.row_count)]
    simp
  have ht : totalRecords stats = (stats.map (fun t => t.row_count)).sum := by
    unfold totalRecords
    rw [foldl_add_eq_sum (fun t => t.row_count)]
    simp
  have hmap : stats.map (fun t => max 0 t.row_count) =
      (stats.map (fun t => t.row_count)).map (fun x => max 0 x) := by
    rw [List.map_map]
    rfl
  refine ⟨?_, ?_, hv, ht⟩
  · rw [hv, ht, hmap]
    rw [Ne, sum_clamped_eq_iff]
    constructor
    · intro h
      push_neg at h
      rcases h with ⟨x, hmem, hneg⟩
      rcases List.mem_map.mp hmem with ⟨t, htm, rfl⟩
      exact ⟨t, htm, by omega⟩
    · intro ⟨t, htm, hneg⟩ hall
      have := hall t.row_count (List.mem_map.mpr ⟨t, htm, rfl⟩)
      omega
  · rw [hv, ht, hmap]
    exact sum_le_sum_clamped _

/-! ### Comparator laws for the findings sort -/

/-- Swapping the arguments of localeCompare negates it. -/
theorem localeCompare_swap (a b : String) : localeCompare b a = -(localeCompare a b) := by
  unfold localeCompare
  rcases lt_trichotomy a b with h | h | h
  · rw [if_neg (asymm h), if_neg (ne_of_gt h), if_pos h]
    norm_num
  · subst h
    simp
  · rw [if_pos h, if_neg (asymm h), if_neg (ne_of_gt h)]

/-- localeCompare is non-positive exactly on ordered pairs. -/
theorem localeCompare_nonpos_iff (a b : String) : localeCompare a b ≤ 0 ↔ a ≤ b := by
  unfold localeCompare
  rcases lt_trichotomy a b with h | h | h
  · simp [h, le_of_lt h]
  · subst h
    simp
  · rw [if_neg (asymm h), if_neg (ne_of_gt h)]
    simp [not_le.mpr h]

/-- localeCompare vanishes exactly on equal strings. -/
theorem localeCompare_eq_zero_iff (a b : String) : localeCompare a b = 0 ↔ a = b := by
  unfold localeCompare
  rcases lt_trichotomy a b with h | h | h
  · simp [h, ne_of_lt h]
  · subst h
    simp
  · rw [if_neg (asymm h), if_neg (ne_of_gt h)]
    simp [ne_of_gt h]

/-- Swapping the arguments of any per-field comparator negates it. -/
theorem fieldCmp_swap (field : SortField) (a b : PIIFinding) :
    fieldCmp field b a = -(fieldCmp field a b) := by
  cases field <;> simp only [fieldCmp]
  · exact localeCompare_swap _ _
  · exact localeCompare_swap _ _
  · exact localeCompare_swap _ _
  · ring
  · ring

/-- The non-positive half of each per-field comparator is transitive. -/
theorem fieldCmp_trans_nonpos (field : SortField) (a b c : PIIFinding)
    (hab : fieldCmp field a b ≤ 0) (hbc : fieldCmp field b c ≤ 0) :
    fieldCmp field a c ≤ 0 := by
  cases field <;> simp only [fieldCmp] at *
  · rw [localeCompare_nonpos_iff] at *
    exact le_trans hab hbc
  · rw [localeCompare_nonpos_iff] at *
    exact le_trans hab hbc
  · rw [localeCompare_nonpos_iff] at *
    exact le_trans hab hbc
  · linarith
  · linarith

/-- Zero per-field comparison is transitive. -/
theorem fieldCmp_zero_trans (field : SortField) (a b c : PIIFinding)
    (hab : fieldCmp field a b = 0) (hbc : fieldCmp field b c = 0) :
    fieldCmp field a c = 0 := by
  cases field <;> simp only [fieldCmp] at *
  · rw [localeCompare_eq_zero_iff] at *
    exact hab.trans hbc
  · rw [localeCompare_eq_zero_iff] at *
    exact hab.trans hbc
  · rw [localeCompare_eq_zero_iff] at *
    exact hab.trans hbc
  · linarith
  · linarith

/-- The sort relation is total for every field and direction. -/
theorem findingLe_total (field : SortField) (asc : Bool) (a b : PIIFinding) :
    findingLe field asc a b || findingLe field asc b a := by
  have hswap := fieldCmp_swap field a b
  simp only [findingLe, findingCmp, Bool.or_eq_true, decide_eq_true_eq]
  cases asc <;> simp only [Bool.false_eq_true, if_false, if_true, hswap] <;>
    rcases le_total (fieldCmp field a b) 0 with h | h
  · right
    linarith
  · left
    linarith
  · left
    exact h
  · right
    linarith

/-- The sort relation is transitive for every field and direction. -/
theorem findingLe_trans (field : SortField) (asc : Bool) (a b c : PIIFinding)
    (hab : findingLe field asc a b) (hbc : findingLe field asc b c) :
    findingLe field asc a c := by
  simp only [findingLe, findingCmp, decide_eq_true_eq] at *
  cases asc <;> simp only [Bool.false_eq_true, if_false, if_true] at *
  · have h1 : fieldCmp field b a ≤ 0 := by
      rw [fieldCmp_swap]
      linarith
    have h2 : fieldCmp field c b ≤ 0 := by
      rw [fieldCmp_swap]
      linarith
    have := fieldCmp_trans_nonpos field c b a h2 h1
    rw [fieldCmp_swap] at this
    linarith
  · exact fieldCmp_trans_nonpos field a b c hab hbc

/-- Stability of the modelled Array.prototype.sort: filtering the sorted
list by any predicate that is constant across comparator ties returns the
same list as filtering the input, i.e. tied elements keep their original
relative order. -/
theorem mergeSort_filter_stable {α : Type} (le : α → α → Bool)
    (trans : ∀ a b c, le a b → le b c → le a c)
    (total : ∀ a b, le a b || le b a)
    (l : List α) (p : α → Bool)
    (hp : ∀ x y, p x = true → p y = true → le x y = true) :
    (l.mergeSort le).filter p = l.filter p := by
  have hsub : List.Sublist (l.filter p) l := List.filter_sublist l
  have hpw : (l.filter p).Pairwise (fun a b => le a b = true) := by
    refine List.pairwise_of_forall_mem_list ?_
    intro a ha b hb
    exact hp a b (List.mem_filter.mp ha).2 (List.mem_filter.mp hb).2
  have h1 : List.Sublist (l.filter p) (l.mergeSort le) :=
    List.sublist_mergeSort trans total hpw hsub
  have h2 : (l.filter p).filter p = l.filter p :=
    List.filter_eq_self.mpr (fun a ha => (List.mem_filter.mp ha).2)
  have h3 : List.Sublist (l.filter p) ((l.mergeSort le).filter p) := by
    have := h1.filter p
    rwa [h2] at this
  have h4 : ((l.mergeSort le).filter p).Perm (l.filter p) :=
    (List.mergeSort_perm l le).filter p
  exact (h3.eq_of_length h4.length_eq.symm).symm

/-- C3: sorting by risk_level ascending orders the findings by the fixed
rank critical, high, medium, low, with unrecognized risk values ranking
after all four; and for every field, direction and filter, elements tied
under the comparator keep their original relative order (the sort is
stable). -/
theorem sortedFindings_order_and_stability :
    (∀ (l : List PIIFinding) (filt : RiskFilter),
      (sortedFindings l filt .risk_level true).Pairwise
        (fun a b => riskRank a.risk_level ≤ riskRank b.risk_level)) ∧
    (riskRank "critical" < riskRank "high" ∧ riskRank "high" < riskRank "medium" ∧
      riskRank "medium" < riskRank "low") ∧
    (∀ r, r ≠ "critical" → r ≠ "high" → r ≠ "medium" → r ≠ "low" →
      riskRank "low" < riskRank r) ∧
    (∀ (l : List PIIFinding) (filt : RiskFilter) (field : SortField) (asc : Bool)
      (g : PIIFinding),
      (sortedFindings l filt field asc).filter
          (fun f => decide (fieldCmp field f g = 0)) =
        (filterStep l filt).filter (fun f => decide (fieldCmp field f g = 0))) := by
  refine ⟨?_, by decide, ?_, ?_⟩
  · intro l filt
    unfold sortedFindings sortStep
    have h := List.sorted_mergeSort
      (findingLe_trans .risk_level true) (findingLe_total .risk_level true)
      (filterStep l filt)
    refine List.Pairwise.imp ?_ h
    intro a b hab
    simp only [findingLe, findingCmp, if_true, fieldCmp, decide_eq_true_eq] at hab
    have : (riskRank a.risk_level : Rat) ≤ (riskRank b.risk_level : Rat) := by linarith
    exact_mod_cast this
  · intro r h1 h2 h3 h4
    have : RISK_ORDER r = none := by
      unfold RISK_ORDER
      split <;> simp_all
    simp [riskRank, this, RISK_ORDER]
  · intro l filt field asc g
    unfold sortedFindings sortStep
    refine mergeSort_filter_stable (findingLe field asc) (findingLe_trans field asc)
      (findingLe_total field asc) (filterStep l filt) _ ?_
    intro x y hx hy
    simp only [decide_eq_true_eq] at hx hy
    have hyg : fieldCmp field g y = 0 := by
      rw [fieldCmp_swap]
      simp [hy]
    have hxy : fieldCmp field x y = 0 := fieldCmp_zero_trans field x g y hx hyg
    cases asc <;> simp [findingLe, findingCmp, hxy]

/-- C3 witness: an unrecognized risk value ranks after low. -/
theorem sortedFindings_order_and_stability_witness :
    riskRank "low" < riskRank "unknown" :=
  sortedFindings_order_and_stability.2.2.1 "unknown"
    (by decide) (by decide) (by decide) (by decide)

/-- filterStep is the filter by the risk predicate (the all case filters
nothing, which equals filtering by the constantly-true predicate). -/
theorem filterStep_eq_filter (l : List PIIFinding) (filt : RiskFilter) :
    filterStep l filt = l.filter (riskFilterPred filt) := by
  cases filt
  · rw [show riskFilterPred RiskFilter.all = (fun _ => true) from funext fun f => rfl]
    exact (List.filter_true l).symm
  · rfl
  · rfl

/-- C6: for every finding list, risk filter, sort field and direction,
filtering then sorting is a permutation of (hence the same row set as)
sorting then filtering; the critical filter keeps exactly the critical
rows and the high filter keeps exactly the critical-or-high rows. -/
theorem filter_sort_commute :
    (∀ (l : List PIIFinding) (filt : RiskFilter) (field : SortField) (asc : Bool),
      (sortedFindings l filt field asc).Perm
        ((sortStep l field asc).filter (riskFilterPred filt))) ∧
    (∀ f, riskFilterPred .critical f = (f.risk_level == "critical")) ∧
    (∀ f, riskFilterPred .high f =
      (f.risk_level == "critical" || f.risk_level == "high")) := by
  refine ⟨?_, fun f => rfl, fun f => rfl⟩
  intro l filt field asc
  have h1 : (sortedFindings l filt field asc).Perm (l.filter (riskFilterPred filt)) := by
    unfold sortedFindings sortStep
    rw [filterStep_eq_filter]
    exact List.mergeSort_perm _ _
  have h2 : ((sortStep l field asc).filter (riskFilterPred filt)).Perm
      (l.filter (riskFilterPred filt)) :=
    (List.mergeSort_perm l _).filter _
  exact h1.trans h2.symm

/-! ### Heatmap pivot theorems -/

/-- find? only looks at the predicate's values on the list. -/
theorem findOptCongr {α : Type} (p q : α → Bool) :
    ∀ (l : List α), (∀ x ∈ l, p x = q x) → l.find? p = l.find? q := by
  intro l
  induction l with
  | nil => intro _; rfl
  | cons a l ih =>
      intro h
      rw [List.find?_cons, List.find?_cons, h a (List.mem_cons_self a l),
        ih (fun x hx => h x (List.mem_cons_of_mem a hx))]

/-- Splitting at a separator character absent from both prefixes is
injective on the pair of prefix and suffix. -/
theorem append_bar_inj (p1 p2 : List Char) :
    ∀ (t1 t2 : List Char), ('|' : Char) ∉ t1 → ('|' : Char) ∉ t2 →
      t1 ++ '|' :: p1 = t2 ++ '|' :: p2 → t1 = t2 ∧ p1 = p2 := by
  intro t1
  induction t1 with
  | nil =>
      intro t2 h1 h2 he
      cases t2 with
      | nil => simpa using he
      | cons d t2' =>
          simp only [List.nil_append, List.cons_append, List.cons.injEq] at he
          exact absurd (he.1 ▸ List.mem_cons_self d t2') h2
  | cons c t1' ih =>
      intro t2 h1 h2 he
      cases t2 with
      | nil =>
          simp only [List.cons_append, List.nil_append, List.cons.injEq] at he
          exact absurd (he.1 ▸ List.mem_cons_self c t1') h1
      | cons d t2' =>
          simp only [List.cons_append, List.cons.injEq] at he
          have h1' : ('|' : Char) ∉ t1' := fun hm => h1 (List.mem_cons_of_mem c hm)
          have h2' : ('|' : Char) ∉ t2' := fun hm => h2 (List.mem_cons_of_mem d hm)
          rcases ih t2' h1' h2' he.2 with ⟨hte, hpe⟩
          exact ⟨by rw [he.1, hte], hpe⟩

/-- The character data of a key-shaped concatenation. -/
theorem key_data (x y : String) : (x ++ "|" ++ y).data = x.data ++ '|' :: y.data := by
  rw [String.data_append, String.data_append]
  simp

/-- When neither table name contains the separator, key equality is
exactly pairwise equality of table and pii_type. -/
theorem cellKey_eq_iff (c : HeatmapCell) (t pt : String)
    (hc : ('|' : Char) ∉ c.table.data) (ht : ('|' : Char) ∉ t.data) :
    (cellKey c == t ++ "|" ++ pt) = (c.table == t && c.pii_type == pt) := by
  rw [Bool.eq_iff_iff]
  simp only [beq_iff_eq, Bool.and_eq_true]
  constructor
  · intro h
    have hd : c.table.data ++ '|' :: c.pii_type.data = t.data ++ '|' :: pt.data := by
      have := congrArg String.data h
      rwa [show cellKey c = c.table ++ "|" ++ c.pii_type from rfl, key_data, key_data]
        at this
    rcases append_bar_inj c.pii_type.data pt.data c.table.data t.data hc ht hd with
      ⟨h1, h2⟩
    exact ⟨String.ext h1, String.ext h2⟩
  · intro ⟨h1, h2⟩
    rw [show cellKey c = c.table ++ "|" ++ c.pii_type from rfl, h1, h2]

/-- The sum of a constant map is the length times the constant. -/
theorem sum_map_const_len (n : Nat) :
    ∀ l : List String, (l.map (fun _ => n)).sum = l.length * n := by
  intro l
  induction l with
  | nil => simp
  | cons x xs ih =>
      simp only [List.map_cons, List.sum_cons, List.length_cons, ih]
      ring

/-- C4 counterexample: in cexCells the position (table a|b, pii type c) of
the rendered cross product has no source cell for that exact pair, yet the
lookup resolves it to the cell of (table a, pii type b|c) because both
pairs produce the string key a|b|c. -/
theorem heatmapMatrix_collision_cex :
    "a|b" ∈ heatmapTables cexCells ∧
    "c" ∈ heatmapPiiTypes cexCells ∧
    cexCells.all (fun c => !(c.table == "a|b" && c.pii_type == "c")) = true ∧
    resolveCell cexCells "a|b" "c" = some cexCellA ∧
    cexCellA.table ≠ "a|b" := by
  refine ⟨by decide, by decide, by decide, by decide, by decide⟩

/-- C4 (amended): the rendered matrix always has exactly |tables| times
|pii_types| cells; and provided no table name contains the separator
character of the string key, each position resolves to the last source
cell with exactly that table and pii_type, or to none (rendered as the
not-found default) when no such cell exists. -/
theorem heatmapMatrix_spec :
    (∀ cells : List HeatmapCell,
      (renderedMatrix cells).length =
        (heatmapTables cells).length * (heatmapPiiTypes cells).length) ∧
    (∀ (cells : List HeatmapCell) (t pt : String),
      (∀ c ∈ cells, ('|' : Char) ∉ c.table.data) → ('|' : Char) ∉ t.data →
      resolveCell cells t pt =
        cells.reverse.find? (fun c => c.table == t && c.pii_type == pt)) := by
  constructor
  · intro cells
    unfold renderedMatrix
    rw [List.length_flatten, List.map_map]
    have : (List.length ∘ fun tbl =>
        (heatmapPiiTypes cells).map (fun pt => (tbl, pt, resolveCell cells tbl pt))) =
        fun _ => (heatmapPiiTypes cells).length := by
      funext tbl
      simp
    rw [this, sum_map_const_len]
  · intro cells t pt hall ht
    unfold resolveCell
    refine findOptCongr _ _ cells.reverse ?_
    intro c hcm
    exact cellKey_eq_iff c t pt (hall c (List.mem_reverse.mp hcm)) ht

/-- C4 witness: on a benign cell collection the matrix size is the product
and the lookup at a present and an absent pair is the exact-pair search. -/
theorem heatmapMatrix_spec_witness :
    (renderedMatrix witCells).length =
      (heatmapTables witCells).length * (heatmapPiiTypes witCells).length ∧
    resolveCell witCells "users" "phone" =
      witCells.reverse.find? (fun c => c.table == "users" && c.pii_type == "phone") :=
  ⟨heatmapMatrix_spec.1 witCells,
   heatmapMatrix_spec.2 witCells "users" "phone" (by decide) (by decide)⟩

/-! ### Grouping theorems -/

/-- Membership in the first-occurrence dedup with a seen accumulator. -/
theorem mem_firstDedupAux (a : String) :
    ∀ (l seen : List String), a ∈ firstDedupAux seen l ↔ a ∈ l ∧ a ∉ seen := by
  intro l
  induction l with
  | nil => intro seen; simp [firstDedupAux]
  | cons x xs ih =>
      intro seen
      by_cases hx : x ∈ seen
      · rw [firstDedupAux, if_pos hx, ih]
        simp only [List.mem_cons]
        constructor
        · exact fun h => ⟨Or.inr h.1, h.2⟩
        · rintro ⟨(rfl | ha), hn⟩
          · exact absurd hx hn
          · exact ⟨ha, hn⟩
      · rw [firstDedupAux, if_neg hx]
        simp only [List.mem_cons, ih (x :: seen)]
        constructor
        · rintro (rfl | ⟨ha, hn⟩)
          · exact ⟨Or.inl rfl, hx⟩
          · exact ⟨Or.inr ha, fun hs => hn (Or.inr hs)⟩
        · rintro ⟨(rfl | ha), hn⟩
          · exact Or.inl rfl
          · by_cases hax : a = x
            · exact Or.inl hax
            · refine Or.inr ⟨ha, fun hs => ?_⟩
              rcases hs with h | h
              · exact hax h
              · exact hn h

/-- The first-occurrence dedup has no duplicates. -/
theorem nodup_firstDedupAux :
    ∀ (l seen : List String), (firstDedupAux seen l).Nodup := by
  intro l
  induction l with
  | nil => intro seen; simp [firstDedupAux]
  | cons x xs ih =>
      intro seen
      by_cases hx : x ∈ seen
      · rw [firstDedupAux, if_pos hx]
        exact ih seen
      · rw [firstDedupAux, if_neg hx]
        rw [List.nodup_cons]
        refine ⟨?_, ih (x :: seen)⟩
        intro hmem
        exact ((mem_firstDedupAux x xs (x :: seen)).mp hmem).2
          (List.mem_cons_self x seen)

/-- Membership in firstDedup is membership in the source list. -/
theorem mem_firstDedup (a : String) (l : List String) :
    a ∈ firstDedup l ↔ a ∈ l := by
  rw [firstDedup, mem_firstDedupAux]
  simp

/-- firstDedup has no duplicates. -/
theorem nodup_firstDedup (l : List String) : (firstDedup l).Nodup :=
  nodup_firstDedupAux l []

/-- The JS object key enumeration is a permutation of the distinct keys in
insertion order. -/
theorem jsObjectKeys_perm (ks : List String) : (jsObjectKeys ks).Perm ks := by
  unfold jsObjectKeys
  have h1 : (List.insertionSort natKeyLE (ks.filter isArrayIndexKey)).Perm
      (ks.filter isArrayIndexKey) := List.perm_insertionSort _ _
  exact (h1.append_right _).trans (List.filter_append_perm _ ks)

/-- Concatenating, over a duplicate-free list of keys covering every
element's table, the filters of a finding list by table is a permutation
of the list. -/
theorem flatten_groups_perm :
    ∀ (keys : List String) (l : List PIIFinding), keys.Nodup →
      (∀ f ∈ l, f.table ∈ keys) →
      ((keys.map (fun k => l.filter (fun f => f.table == k))).flatten).Perm l := by
  intro keys
  induction keys with
  | nil =>
      intro l _ hcov
      have hl : l = [] :=
        List.eq_nil_iff_forall_not_mem.mpr (fun f hf => by simpa using hcov f hf)
      simp [hl]
  | cons k ks ih =>
      intro l hnd hcov
      have hnd' := List.nodup_cons.mp hnd
      simp only [List.map_cons, List.flatten_cons]
      have hmap : ks.map (fun k' => l.filter (fun f => f.table == k')) =
          ks.map (fun k' =>
            (l.filter (fun f => !(f.table == k))).filter (fun f => f.table == k')) := by
        refine List.map_congr_left ?_
        intro k' hk'
        have hkk : k' ≠ k := fun he => hnd'.1 (he ▸ hk')
        rw [List.filter_filter]
        refine List.filter_congr ?_
        intro f _
        by_cases hf : f.table = k'
        · simp [hf, hkk]
        · simp [hf]
      have hcov' : ∀ f ∈ l.filter (fun f => !(f.table == k)), f.table ∈ ks := by
        intro f hf
        rcases List.mem_filter.mp hf with ⟨hfl, hfk⟩
        rcases List.mem_cons.mp (hcov f hfl) with he | hks
        · simp [he] at hfk
        · exact hks
      have hperm2 := ih (l.filter (fun f => !(f.table == k))) hnd'.2 hcov'
      rw [hmap]
      exact (hperm2.append_left _).trans (List.filter_append_perm _ l)

/-- The group keys of groupedFindings are the JS-ordered distinct tables. -/
theorem groupedFindings_keys (l : List PIIFinding) :
    (groupedFindings l).map (fun e => e.1) =
      jsObjectKeys (firstDedup (l.map (fun f => f.table))) := by
  unfold groupedFindings
  rw [List.map_map]
  exact List.map_id _

/-- C5 counterexample: on the sorted-and-filtered list with first-seen
table order 2 then 1, Object.entries enumerates the integer-like keys in
ascending numeric order, so the groups appear as 1 then 2: the keys are
not in first-seen order and the concatenation of the groups is not the
input list. -/
theorem groupedFindings_order_cex :
    sortedFindings cexGroupList .all .risk_level true = cexGroupList ∧
    ((groupedFindings cexGroupList).map (fun e => e.2)).flatten ≠ cexGroupList ∧
    (groupedFindings cexGroupList).map (fun e => e.1) = ["1", "2"] ∧
    firstDedup (cexGroupList.map (fun f => f.table)) = ["2", "1"] := by
  refine ⟨?_, by decide, by decide, by decide⟩
  unfold sortedFindings sortStep
  have hle : findingLe .risk_level true exFindingT2 exFindingT1 = true := by
    have hc : fieldCmp .risk_level exFindingT2 exFindingT1 = 0 := by
      show (riskRank "high" : Rat) - (riskRank "high" : Rat) = 0
      norm_num
    simp [findingLe, findingCmp, hc]
  refine List.mergeSort_of_sorted ?_
  refine List.Pairwise.cons ?_ (List.pairwise_singleton _ _)
  intro b hb
  rcases List.mem_singleton.mp hb with rfl
  exact hle

/-- C5 (amended): grouping partitions the sorted/filtered list exactly up
to group order: the concatenation of the groups is a permutation of the
input (no loss, no duplication), the group keys are exactly the distinct
table names present, each group is the in-order sublist of findings with
that table, and the groups appear in first-seen table order whenever no
table name is an integer-like key (integer-like names are enumerated
first, in ascending numeric order, by the JS object). -/
theorem groupedFindings_partition (l : List PIIFinding) :
    (((groupedFindings l).map (fun e => e.2)).flatten).Perm l ∧
    ((groupedFindings l).map (fun e => e.1)).Nodup ∧
    (∀ k, k ∈ (groupedFindings l).map (fun e => e.1) ↔
      k ∈ l.map (fun f => f.table)) ∧
    (∀ e ∈ groupedFindings l, e.2 = l.filter (fun f => f.table == e.1)) ∧
    ((∀ t ∈ l.map (fun f => f.table), isArrayIndexKey t = false) →
      (groupedFindings l).map (fun e => e.1) =
        firstDedup (l.map (fun f => f.table))) := by
  have hperm : (jsObjectKeys (firstDedup (l.map (fun f => f.table)))).Perm
      (firstDedup (l.map (fun f => f.table))) := jsObjectKeys_perm _
  have hnd : (jsObjectKeys (firstDedup (l.map (fun f => f.table)))).Nodup :=
    hperm.nodup_iff.mpr (nodup_firstDedup _)
  have hcov : ∀ f ∈ l, f.table ∈ jsObjectKeys (firstDedup (l.map (fun f => f.table))) := by
    intro f hf
    rw [hperm.mem_iff, mem_firstDedup]
    exact List.mem_map.mpr ⟨f, hf, rfl⟩
  refine ⟨?_, ?_, ?_, ?_, ?_⟩
  · have hsnd : (groupedFindings l).map (fun e => e.2) =
        (jsObjectKeys (firstDedup (l.map (fun f => f.table)))).map
          (fun k => l.filter (fun f => f.table == k)) := by
      unfold groupedFindings
      rw [List.map_map]
      rfl
    rw [hsnd]
    exact flatten_groups_perm _ l hnd hcov
  · rw [groupedFindings_keys]
    exact hnd
  · intro k
    rw [groupedFindings_keys, hperm.mem_iff]
    exact mem_firstDedup k _
  · intro e he
    unfold groupedFindings at he
    rcases List.mem_map.mp he with ⟨k, hk, rfl⟩
    rfl
  · intro hno
    have hno' : ∀ t ∈ firstDedup (l.map (fun f => f.table)), isArrayIndexKey t = false :=
      fun t ht => hno t ((mem_firstDedup t _).mp ht)
    have h1 : (firstDedup (l.map (fun f => f.table))).filter isArrayIndexKey = [] :=
      List.filter_eq_nil_iff.mpr (fun k hk => by simp [hno' k hk])
    have h2 : (firstDedup (l.map (fun f => f.table))).filter
        (fun k => !isArrayIndexKey k) = firstDedup (l.map (fun f => f.table)) :=
      List.filter_eq_self.mpr (fun k hk => by simp [hno' k hk])
    rw [groupedFindings_keys]
    unfold jsObjectKeys
    rw [h1, h2]
    rfl

/-- C5 witness: the partition properties evaluated on a list with ordinary
table names, where the groups do appear in first-seen order. -/
theorem groupedFindings_partition_witness :
    (((groupedFindings witGroupList).map (fun e => e.2)).flatten).Perm witGroupList ∧
    (groupedFindings witGroupList).map (fun e => e.1) =
      firstDedup (witGroupList.map (fun f => f.table)) :=
  ⟨(groupedFindings_partition witGroupList).1,
   (groupedFindings_partition witGroupList).2.2.2.2 (by decide)⟩

/-! ### Empty-state totality -/

/-- C9: the report transforms are total Lean functions, and for a
ScanResult whose collections are all empty every derived value is the
empty state: the heatmap, consent and table-stats sections are omitted,
the sorted and grouped findings are empty, the rendered matrix is empty
and both aggregate figures are zero. -/
theorem emptyScan_renders_empty (data : ScanResponse) (filt : RiskFilter)
    (field : SortField) (asc : Bool)
    (h1 : data.findings = []) (h2 : data.heatmap = [])
    (h3 : data.consent_mappings = []) (h4 : data.table_stats = []) :
    heatmapSectionShown data = false ∧
    consentSectionShown data = false ∧
    tableStatsSectionShown data = false ∧
    sortedFindings data.findings filt field asc = [] ∧
    groupedFindings (sortedFindings data.findings filt field asc) = [] ∧
    renderedMatrix data.heatmap = [] ∧
    dataVolume data.table_stats = 0 ∧
    totalRecords data.table_stats = 0 := by
  have hfs : filterStep [] filt = [] := by cases filt <;> rfl
  have hsorted : sortedFindings data.findings filt field asc = [] := by
    rw [h1]
    unfold sortedFindings sortStep
    rw [hfs]
    exact List.mergeSort_nil
  refine ⟨?_, ?_, ?_, hsorted, ?_, ?_, ?_, ?_⟩
  · simp [heatmapSectionShown, h2, heatmapPiiTypes, firstDedup, firstDedupAux]
  · simp [consentSectionShown, h3]
  · simp [tableStatsSectionShown, h4]
  · rw [hsorted]
    rfl
  · rw [h2]
    rfl
  · rw [h4]
    rfl
  · rw [h4]
    rfl

/-- C9 witness: the fully empty scan result renders the empty state for
every section under the default view state. -/
theorem emptyScan_renders_empty_witness :
    heatmapSectionShown exEmptyScan = false ∧
    consentSectionShown exEmptyScan = false ∧
    tableStatsSectionShown exEmptyScan = false ∧
    sortedFindings exEmptyScan.findings .all .risk_level true = [] ∧
    groupedFindings (sortedFindings exEmptyScan.findings .all .risk_level true) = [] ∧
    renderedMatrix exEmptyScan.heatmap = [] ∧
    dataVolume exEmptyScan.table_stats = 0 ∧
    totalRecords exEmptyScan.table_stats = 0 :=
  emptyScan_renders_empty exEmptyScan .all .risk_level true rfl rfl rfl rfl

end DataDiscovery
